import Mathlib

/- Verification development for the Tab-Talk ("Tab Orchestra") repository.

The repository consists of a WebSocket relay server (server.js) that maintains
a connection registry and a group registry, and a browser-extension service
worker plus an offscreen AI document (client side) that reconcile relayed
tab-share events and compute tab clusterings.

The definitions below are a shallow embedding of that code:
  - machine timestamps are modelled as Nat (server side, Date.now()) and Int
    (client side, where absolute differences are taken);
  - JavaScript Map objects are modelled as association lists with lookupA /
    setA / removeA mirroring Map.get / Map.set / Map.delete;
  - JavaScript Set objects are modelled as Nat lists with addSet / delSet
    mirroring Set.add / Set.delete (membership-preserving);
  - outbound ws.send calls are modelled as a returned list of
    (recipient, message) pairs;
  - the URL constructor (which throws on an unparsable URL) is modelled as an
    arbitrary parameter parseHost : String -> Option String. -/

namespace TabTalk

/-- A locally stored shared-tab record as handled by the service worker's
reconciler (handleSharedTab): the fields its dedup logic reads (url, groupId,
timestamp) plus the title. -/
structure TabRec where
  title : String
  url : String
  groupId : Nat
  timestamp : Int
  deriving DecidableEq

/-- Outcome of one handleSharedTab run, mirroring its three exits: the
duplicate branch (sends a duplicate_tab_warning to the UI), the echo branch
(silent return), and the append branch. -/
inductive DedupOutcome where
  | duplicate
  | echo
  | added
  deriving DecidableEq

/-- Predicate of the duplicate-detection find in handleSharedTab
(part_001 lines 678-682): same url, same groupId, and timestamps more than
1000 ms apart. -/
def dupMatch (x t : TabRec) : Prop :=
  x.url = t.url ∧ x.groupId = t.groupId ∧ 1000 < (x.timestamp - t.timestamp).natAbs

instance (x t : TabRec) : Decidable (dupMatch x t) := by
  unfold dupMatch; infer_instance

/-- Predicate of the echo-detection some in handleSharedTab
(part_001 lines 709-712): same url (the groupId is not compared) and
timestamps at most 1000 ms apart. -/
def echoMatch (x t : TabRec) : Prop :=
  x.url = t.url ∧ (x.timestamp - t.timestamp).natAbs ≤ 1000

instance (x t : TabRec) : Decidable (echoMatch x t) := by
  unfold echoMatch; infer_instance

/-- The reconciler handleSharedTab (part_001 lines 673-747): first the
duplicate check (url + groupId, delta over 1000 ms), then the echo check
(url only, delta at most 1000 ms), else append the incoming record. -/
def handleSharedTab (sharedTabs : List TabRec) (tabData : TabRec) :
    List TabRec × DedupOutcome :=
  if ∃ x ∈ sharedTabs, dupMatch x tabData then
    (sharedTabs, .duplicate)
  else if ∃ x ∈ sharedTabs, echoMatch x tabData then
    (sharedTabs, .echo)
  else
    (sharedTabs ++ [tabData], .added)

/-- A published cluster: name, member tab records, theme (part_001). -/
structure Cluster where
  name : String
  tabs : List TabRec
  theme : String
  deriving DecidableEq

/-- One cluster of the classifier's JSON response: a name, a list of tab
indices (arbitrary integers, as parsed from JSON), and an optional theme. -/
structure RespCluster where
  name : String
  tabs : List Int
  theme : Option String
  deriving DecidableEq

/-- JavaScript array indexing tabs[index]: undefined (none) when the index is
negative or at least the length. -/
def jsGet (tabs : List TabRec) (i : Int) : Option TabRec :=
  if i < 0 then none else tabs[i.toNat]?

/-- The response-validation step of categorizeTabs (part_001 lines 199-213,
offscreen document): map each response cluster's indices to tab objects,
filter out unresolved (undefined) ones, default the theme, and drop clusters
that end up empty. -/
def convertClusters (tabs : List TabRec) (parsed : List RespCluster) : List Cluster :=
  (parsed.map fun cluster =>
    { name := cluster.name
      tabs := (cluster.tabs.map fun index => jsGet tabs index).filterMap id
      theme := cluster.theme.getD ("Collection of " ++ cluster.name.toLower ++ " content") }).filter
    fun cluster => 0 < cluster.tabs.length

/-- Payload of a tabs-categorized response as received by the service worker:
an optional error and an optional cluster list. -/
structure CatData where
  error : Option String
  clusters : Option (List Cluster)
  deriving DecidableEq

/-- The service worker's handleTabsCategorized (part_001 lines 1191-1218):
ignore responses carrying an error or no cluster array, otherwise store the
received clusters as the published aiClusters, unconditionally. -/
def handleTabsCategorized (aiClusters : List Cluster) (data : CatData) : List Cluster :=
  match data.error with
  | some _ => aiClusters
  | none =>
    match data.clusters with
    | none => aiClusters
    | some cs => cs

/-- Published cluster state after a sequence of classification responses is
applied in arrival order. -/
def applyResponses (aiClusters : List Cluster) (responses : List CatData) : List Cluster :=
  responses.foldl handleTabsCategorized aiClusters

/-- The grouping key of simpleGroupByDomain: the URL's hostname, or "Other"
when the URL constructor throws (part_001 lines 1095-1117). -/
def hostKey (parseHost : String → Option String) (tab : TabRec) : String :=
  (parseHost tab.url).getD "Other"

/-- Appending a tab to its key's bucket in the domainGroups object, creating
the bucket on first use (insertion order of first occurrence, as for
JavaScript object string keys). -/
def addToGroup (gs : List (String × List TabRec)) (k : String) (tab : TabRec) :
    List (String × List TabRec) :=
  match gs with
  | [] => [(k, [tab])]
  | (k', ts) :: rest =>
    if k' = k then (k', ts ++ [tab]) :: rest else (k', ts) :: addToGroup rest k tab

/-- The domainGroups object built by the forEach loop of simpleGroupByDomain. -/
def domainGroups (parseHost : String → Option String) (tabs : List TabRec) :
    List (String × List TabRec) :=
  tabs.foldl (fun gs tab => addToGroup gs (hostKey parseHost tab) tab) []

/-- The fallback grouping simpleGroupByDomain (part_001 lines 1092-1126):
group tabs by URL hostname ("Other" for unparsable URLs) and convert each
bucket to a cluster themed "Content from " plus the domain. -/
def simpleGroupByDomain (parseHost : String → Option String) (tabs : List TabRec) :
    List Cluster :=
  (domainGroups parseHost tabs).map fun p =>
    { name := p.1, tabs := p.2, theme := "Content from " ++ p.1 }

/-- The client-supplied tab payload of a share_tab message, as spread into the
server's complete record (its own timestamp field is overwritten there). -/
structure TabPayload where
  title : String
  url : String
  deriving DecidableEq

/-- A server-side shared-tab record: the client payload spread together with
sharedBy and the server-assigned timestamp (server.js lines 194-198). -/
structure SRecord where
  payload : TabPayload
  sharedBy : Nat
  timestamp : Nat
  deriving DecidableEq

/-- A server-side annotation record (server.js lines 235-239). -/
structure ARecord where
  payload : String
  createdBy : Nat
  timestamp : Nat
  deriving DecidableEq

/-- A connection registry entry (server.js lines 23-27): transport state
(modelled as an open flag), joined group ids, liveness timestamp. -/
structure Client where
  wsOpen : Bool
  groups : List Nat
  lastSeen : Nat
  deriving DecidableEq

/-- A group registry entry (server.js lines 119-125). -/
structure Group where
  members : List Nat
  sharedTabs : List SRecord
  annotations : List ARecord
  created : Nat
  deriving DecidableEq

/-- The two server registries (this.clients and this.groups). -/
structure ServerState where
  clients : List (Nat × Client)
  groups : List (Nat × Group)
  deriving DecidableEq

/-- Outbound server envelopes (server.js emitted message types). -/
inductive Msg where
  | welcome (clientId : Nat)
  | groupJoined (groupId memberCount : Nat)
  | groupData (sharedTabs : List SRecord) (annotations : List ARecord)
  | memberJoined (clientId memberCount : Nat)
  | memberLeft (clientId memberCount : Nat)
  | tabShared (data : SRecord)
  | annotationUpdate (data : String) (createdBy : Nat)
  | aiClusterUpdate (data : String) (updatedBy : Nat)
  | pong
  deriving DecidableEq

/-- Inbound envelopes dispatched by handleMessage (server.js lines 79-98);
unknown covers unrecognized type strings, which fall through the switch. -/
inductive InMsg where
  | heartbeat
  | joinGroup (groupId : Nat)
  | leaveGroup (groupId : Nat)
  | shareTab (data : TabPayload)
  | annotationCreated (data : String)
  | aiClusterUpdate (data : String)
  | unknown (ty : String)
  deriving DecidableEq

/-- Map.get on an association list (also used for JavaScript object string
keys on the client side). -/
def lookupA {κ α : Type} [DecidableEq κ] : List (κ × α) → κ → Option α
  | [], _ => none
  | (k, v) :: rest, k' => if k = k' then some v else lookupA rest k'

/-- Map.set on an association list: replace the first binding of the key, or
append a new binding. -/
def setA {κ α : Type} [DecidableEq κ] : List (κ × α) → κ → α → List (κ × α)
  | [], k, v => [(k, v)]
  | (k', v') :: rest, k, v =>
    if k' = k then (k, v) :: rest else (k', v') :: setA rest k v

/-- Map.delete on an association list: drop the first binding of the key. -/
def removeA {κ α : Type} [DecidableEq κ] : List (κ × α) → κ → List (κ × α)
  | [], _ => []
  | (k', v') :: rest, k =>
    if k' = k then rest else (k', v') :: removeA rest k

/-- Keys of an association list are pairwise distinct (holds for every
registry reachable through setA / removeA from the empty map). -/
def NodupKeys {κ α : Type} (l : List (κ × α)) : Prop :=
  (l.map Prod.fst).Nodup

instance {κ α : Type} [DecidableEq κ] (l : List (κ × α)) : Decidable (NodupKeys l) := by
  unfold NodupKeys; infer_instance

/-- Set.add: append the element unless already present. -/
def addSet (l : List Nat) (x : Nat) : List Nat :=
  if x ∈ l then l else l ++ [x]

/-- Set.delete: remove the element. -/
def delSet (l : List Nat) (x : Nat) : List Nat :=
  l.filter fun y => y ≠ x

/-- broadcastToGroup (server.js lines 263-285): send the message to each group
member whose socket is open, except the optionally excluded sender; unknown
group ids broadcast to nobody. -/
def broadcastToGroup (s : ServerState) (groupId : Nat) (message : Msg)
    (excludeClientId : Option Nat) : List (Nat × Msg) :=
  match lookupA s.groups groupId with
  | none => []
  | some group =>
    group.members.filterMap fun memberId =>
      if excludeClientId = some memberId then none
      else
        match lookupA s.clients memberId with
        | some c => if c.wsOpen then some (memberId, message) else none
        | none => none

/-- handleHeartbeat (server.js lines 101-111): reply pong and refresh
lastSeen when the client exists and its socket is open. -/
def handleHeartbeat (s : ServerState) (clientId now : Nat) :
    ServerState × List (Nat × Msg) :=
  match lookupA s.clients clientId with
  | none => (s, [])
  | some client =>
    if client.wsOpen then
      ({ s with clients := setA s.clients clientId { client with lastSeen := now } },
        [(clientId, Msg.pong)])
    else (s, [])

/-- handleJoinGroup (server.js lines 113-160): create the group if absent,
add the client to the group's member set and the group to the client's group
set, reply with group_joined and group_data, and broadcast member_joined to
the other members. -/
def handleJoinGroup (s : ServerState) (clientId groupId now : Nat) :
    ServerState × List (Nat × Msg) :=
  match lookupA s.clients clientId with
  | none => (s, [])
  | some client =>
    let groups1 :=
      if (lookupA s.groups groupId).isSome then s.groups
      else
        setA s.groups groupId
          { members := [], sharedTabs := [], annotations := [], created := now }
    match lookupA groups1 groupId with
    | none => (s, [])
    | some group =>
      let group' := { group with members := addSet group.members clientId }
      let client' := { client with groups := addSet client.groups groupId }
      let s' : ServerState :=
        { clients := setA s.clients clientId client', groups := setA groups1 groupId group' }
      (s',
        [(clientId, Msg.groupJoined groupId group'.members.length),
          (clientId, Msg.groupData group'.sharedTabs group'.annotations)] ++
          broadcastToGroup s' groupId (Msg.memberJoined clientId group'.members.length)
            (some clientId))

/-- handleLeaveGroup (server.js lines 162-183): when both the client and the
group exist, remove the membership on both sides, broadcast member_left to
the remaining members, and delete the group immediately if it became empty. -/
def handleLeaveGroup (s : ServerState) (clientId groupId : Nat) :
    ServerState × List (Nat × Msg) :=
  match lookupA s.clients clientId, lookupA s.groups groupId with
  | some client, some group =>
    let group' := { group with members := delSet group.members clientId }
    let client' := { client with groups := delSet client.groups groupId }
    let s1 : ServerState :=
      { clients := setA s.clients clientId client', groups := setA s.groups groupId group' }
    let msgs :=
      broadcastToGroup s1 groupId (Msg.memberLeft clientId group'.members.length)
        (some clientId)
    if group'.members.length = 0 then
      ({ s1 with groups := removeA s1.groups groupId }, msgs)
    else (s1, msgs)
  | _, _ => (s, [])

/-- The complete tab object of handleShareTab: client payload spread with
sharedBy and the server timestamp (server.js lines 194-198). -/
def stampTab (data : TabPayload) (clientId now : Nat) : SRecord :=
  { payload := data, sharedBy := clientId, timestamp := now }

/-- Appending to a group's sharedTabs with the 100-capacity bound of
handleShareTab (server.js lines 201-206): push, then keep the last 100. -/
def pushBounded (sharedTabs : List SRecord) (r : SRecord) : List SRecord :=
  let h := sharedTabs ++ [r]
  if 100 < h.length then h.drop (h.length - 100) else h

/-- handleShareTab (server.js lines 185-226): for each group the sender
belongs to, append the stamped record to that group's bounded history and
broadcast tab_shared and group_data to all members, sender included. -/
def handleShareTab (s : ServerState) (clientId : Nat) (tabData : TabPayload) (now : Nat) :
    ServerState × List (Nat × Msg) :=
  match lookupA s.clients clientId with
  | none => (s, [])
  | some client =>
    client.groups.foldl
      (fun acc groupId =>
        match lookupA acc.1.groups groupId with
        | none => acc
        | some group =>
          let completeTabData := stampTab tabData clientId now
          let group' :=
            { group with sharedTabs := pushBounded group.sharedTabs completeTabData }
          let st : ServerState := { acc.1 with groups := setA acc.1.groups groupId group' }
          (st,
            acc.2 ++ broadcastToGroup st groupId (Msg.tabShared completeTabData) none ++
              broadcastToGroup st groupId (Msg.groupData group'.sharedTabs group'.annotations)
                none))
      (s, [])

/-- The annotation handler (server.js lines 228-248): for each group of the
sender, append the annotation record and broadcast annotation_update to the
other members. -/
def handleAnnotationEvent (s : ServerState) (clientId : Nat) (data : String) (now : Nat) :
    ServerState × List (Nat × Msg) :=
  match lookupA s.clients clientId with
  | none => (s, [])
  | some client =>
    client.groups.foldl
      (fun acc groupId =>
        match lookupA acc.1.groups groupId with
        | none => acc
        | some group =>
          let group' :=
            { group with
              annotations :=
                group.annotations ++ [{ payload := data, createdBy := clientId, timestamp := now }] }
          let st : ServerState := { acc.1 with groups := setA acc.1.groups groupId group' }
          (st, acc.2 ++ broadcastToGroup st groupId (Msg.annotationUpdate data clientId) (some clientId)))
      (s, [])

/-- handleClusterUpdate (server.js lines 250-261): relay-only broadcast of
ai_cluster_update to the sender's groups; no registry mutation. -/
def handleClusterUpdate (s : ServerState) (clientId : Nat) (data : String) :
    ServerState × List (Nat × Msg) :=
  match lookupA s.clients clientId with
  | none => (s, [])
  | some client =>
    (s,
      client.groups.foldl
        (fun acc groupId =>
          acc ++ broadcastToGroup s groupId (Msg.aiClusterUpdate data clientId) (some clientId))
        [])

/-- handleClientDisconnect (server.js lines 287-298): leave every joined
group, then purge the connection record. -/
def handleClientDisconnect (s : ServerState) (clientId : Nat) :
    ServerState × List (Nat × Msg) :=
  match lookupA s.clients clientId with
  | none => (s, [])
  | some client =>
    let r :=
      client.groups.foldl
        (fun acc groupId =>
          let step := handleLeaveGroup acc.1 clientId groupId
          (step.1, acc.2 ++ step.2))
        (s, ([] : List (Nat × Msg)))
    ({ r.1 with clients := removeA r.1.clients clientId }, r.2)

/-- handleMessage (server.js lines 73-99): drop envelopes from unknown
connections, refresh lastSeen for every envelope from a registered one, then
dispatch on the type; unrecognized types fall through the switch. -/
def handleMessage (s : ServerState) (clientId : Nat) (message : InMsg) (now : Nat) :
    ServerState × List (Nat × Msg) :=
  match lookupA s.clients clientId with
  | none => (s, [])
  | some client =>
    let s1 : ServerState :=
      { s with clients := setA s.clients clientId { client with lastSeen := now } }
    match message with
    | .heartbeat => handleHeartbeat s1 clientId now
    | .joinGroup groupId => handleJoinGroup s1 clientId groupId now
    | .leaveGroup groupId => handleLeaveGroup s1 clientId groupId
    | .shareTab data => handleShareTab s1 clientId data now
    | .annotationCreated data => handleAnnotationEvent s1 clientId data now
    | .aiClusterUpdate data => handleClusterUpdate s1 clientId data
    | .unknown _ => (s1, [])

/-- One pass of the cleanup timer (server.js lines 300-324): disconnect every
client silent for over 5 minutes, then delete every empty group older than
1 hour. -/
def cleanup (s : ServerState) (now : Nat) : ServerState :=
  let stale := (s.clients.filter fun p => decide (5 * 60 * 1000 < now - p.2.lastSeen)).map Prod.fst
  let s1 := stale.foldl (fun st clientId => (handleClientDisconnect st clientId).1) s
  { s1 with
    groups :=
      s1.groups.filter fun p => !decide (p.2.members = [] ∧ 60 * 60 * 1000 < now - p.2.created) }

/-- The membership-changing operations of the server (join_group, leave_group,
transport close / liveness eviction). -/
inductive Op where
  | join (clientId groupId now : Nat)
  | leave (clientId groupId : Nat)
  | disconnect (clientId : Nat)
  deriving DecidableEq

/-- State reached after one membership operation. -/
def applyOp (s : ServerState) : Op → ServerState
  | .join clientId groupId now => (handleJoinGroup s clientId groupId now).1
  | .leave clientId groupId => (handleLeaveGroup s clientId groupId).1
  | .disconnect clientId => (handleClientDisconnect s clientId).1

/-- State reached after a sequence of membership operations. -/
def applyOps (s : ServerState) (ops : List Op) : ServerState :=
  ops.foldl applyOp s

/-- Registry symmetry: a connection is in a group's member set iff that group
id is in the connection's group set. -/
def SymmInv (s : ServerState) : Prop :=
  ∀ clientId groupId,
    (∃ g, lookupA s.groups groupId = some g ∧ clientId ∈ g.members) ↔
      (∃ c, lookupA s.clients clientId = some c ∧ groupId ∈ c.groups)

/-- Well-formedness of the registries: unique keys plus registry symmetry. -/
def RegistryInv (s : ServerState) : Prop :=
  NodupKeys s.clients ∧ NodupKeys s.groups ∧ SymmInv s

/-- State reached after a sequence of share_tab messages, each given as
(sender, payload, server time). -/
def shareSeq (s : ServerState) (shares : List (Nat × TabPayload × Nat)) : ServerState :=
  shares.foldl (fun st x => (handleShareTab st x.1 x.2.1 x.2.2).1) s

/-- The stamped server records of a share_tab sequence, in arrival order. -/
def stamped (shares : List (Nat × TabPayload × Nat)) : List SRecord :=
  shares.map fun x => stampTab x.2.1 x.1 x.2.2

/-- Abbreviation: a group after one bounded history push. -/
def shareUpd (group : Group) (tabData : TabPayload) (clientId now : Nat) : Group :=
  { group with sharedTabs := pushBounded group.sharedTabs (stampTab tabData clientId now) }

/-- Abbreviation: a group after folding a record list into its history. -/
def histAfter (group : Group) (recs : List SRecord) : Group :=
  { group with sharedTabs := recs.foldl pushBounded group.sharedTabs }

/-- A concrete one-member client used by the concrete-state theorems. -/
def exClient : Client := ⟨true, [5], 0⟩

/-- A concrete stamped server record. -/
def exRecord : SRecord := ⟨⟨"t", "u"⟩, 0, 0⟩

/-- A concrete one-member group (id 5 in exState2) with one history record. -/
def exGroup2 : Group := ⟨[0], [exRecord], [], 0⟩

/-- A concrete server state: client 0 joined to group 5, which holds one
shared-tab record. -/
def exState2 : ServerState := ⟨[(0, exClient)], [(5, exGroup2)]⟩

/-- A concrete server state like exState2 but with group 5's history empty. -/
def exState5 : ServerState := ⟨[(0, exClient)], [(5, ⟨[0], [], [], 0⟩)]⟩

/-- A concrete 101-element share_tab sequence from client 0. -/
def exShares : List (Nat × TabPayload × Nat) :=
  (List.range 101).map fun i => (0, ⟨"t", "u"⟩, i)

/-- The group record handleJoinGroup ends up updating: the registered group
when present, else the freshly created one (server.js lines 117-128). -/
def joinBase (s : ServerState) (groupId now : Nat) : Group :=
  (lookupA s.groups groupId).getD
    { members := [], sharedTabs := [], annotations := [], created := now }

/-- A concrete client in no group yet. -/
def exClient0 : Client := ⟨true, [], 0⟩

/-- A concrete server state holding one group-less client, as right after a
connection is accepted. -/
def exState0 : ServerState := ⟨[(0, exClient0)], []⟩

end TabTalk

namespace TabTalk

@[simp] theorem lookupA_nil {κ α : Type} [DecidableEq κ] (k : κ) :
    lookupA ([] : List (κ × α)) k = none := rfl

@[simp] theorem lookupA_cons {κ α : Type} [DecidableEq κ] (k' : κ) (v : α)
    (l : List (κ × α)) (k : κ) :
    lookupA ((k', v) :: l) k = if k' = k then some v else lookupA l k := rfl

theorem lookupA_setA {κ α : Type} [DecidableEq κ] (l : List (κ × α)) (k k' : κ) (v : α) :
    lookupA (setA l k v) k' = if k = k' then some v else lookupA l k' := by
  induction l with
  | nil => by_cases h : k = k' <;> simp [setA, h]
  | cons p rest ih =>
    obtain ⟨k₀, v₀⟩ := p
    simp only [setA]
    by_cases h₀ : k₀ = k
    · subst h₀; by_cases h : k₀ = k' <;> simp [h]
    · by_cases h' : k₀ = k'
      · subst h'
        have hk : ¬ k = k₀ := fun hh => h₀ hh.symm
        simp [h₀, hk]
      · simp [h₀, h', ih]

theorem lookupA_eq_none {κ α : Type} [DecidableEq κ] (l : List (κ × α)) (k : κ)
    (h : k ∉ l.map Prod.fst) : lookupA l k = none := by
  induction l with
  | nil => rfl
  | cons p rest ih =>
    obtain ⟨k₀, v₀⟩ := p
    simp only [List.map_cons, List.mem_cons] at h
    push_neg at h
    by_cases hk : k₀ = k
    · exact absurd hk.symm h.1
    · simp [hk, ih h.2]

theorem lookupA_removeA_ne {κ α : Type} [DecidableEq κ] (l : List (κ × α)) (k k' : κ)
    (h : k ≠ k') :
    lookupA (removeA l k) k' = lookupA l k' := by
  induction l with
  | nil => simp [removeA]
  | cons p rest ih =>
    obtain ⟨k₀, v₀⟩ := p
    simp only [removeA]
    by_cases h₀ : k₀ = k
    · subst h₀; simp [h]
    · simp [h₀, ih]

theorem lookupA_removeA_self {κ α : Type} [DecidableEq κ] (l : List (κ × α)) (k : κ)
    (h : NodupKeys l) : lookupA (removeA l k) k = none := by
  induction l with
  | nil => simp [removeA]
  | cons p rest ih =>
    obtain ⟨k₀, v₀⟩ := p
    simp only [NodupKeys, List.map_cons, List.nodup_cons] at h
    simp only [removeA]
    by_cases h₀ : k₀ = k
    · subst h₀
      rw [if_pos rfl]
      exact lookupA_eq_none rest k₀ h.1
    · simp [h₀, ih h.2]

theorem mem_of_lookupA {κ α : Type} [DecidableEq κ] {l : List (κ × α)} {k : κ} {v : α}
    (h : lookupA l k = some v) : (k, v) ∈ l := by
  induction l with
  | nil => simp at h
  | cons p rest ih =>
    obtain ⟨k₀, v₀⟩ := p
    by_cases hk : k₀ = k
    · subst hk
      simp at h
      simp [h]
    · simp [hk] at h
      exact List.mem_cons_of_mem _ (ih h)

theorem lookupA_of_mem {κ α : Type} [DecidableEq κ] {l : List (κ × α)} {k : κ} {v : α}
    (hnd : NodupKeys l) (hm : (k, v) ∈ l) : lookupA l k = some v := by
  induction l with
  | nil => simp at hm
  | cons p rest ih =>
    obtain ⟨k₀, v₀⟩ := p
    simp only [NodupKeys, List.map_cons, List.nodup_cons] at hnd
    rcases List.mem_cons.mp hm with h | h
    · rw [show k₀ = k from (Prod.mk.injEq _ _ _ _ ▸ h.symm).1]
      simp [(Prod.mk.injEq _ _ _ _ ▸ h.symm).2]
    · by_cases hk : k₀ = k
      · subst hk
        exact absurd (List.mem_map_of_mem Prod.fst h) hnd.1
      · simp [hk, ih hnd.2 h]

theorem keys_setA {κ α : Type} [DecidableEq κ] (l : List (κ × α)) (k : κ) (v : α) :
    (setA l k v).map Prod.fst =
      if k ∈ l.map Prod.fst then l.map Prod.fst else l.map Prod.fst ++ [k] := by
  induction l with
  | nil => simp [setA]
  | cons p rest ih =>
    obtain ⟨k₀, v₀⟩ := p
    simp only [setA]
    by_cases h₀ : k₀ = k
    · subst h₀; simp
    · have : ¬ k = k₀ := fun hh => h₀ hh.symm
      by_cases hm : k ∈ rest.map Prod.fst <;> simp [h₀, this, hm, ih]

theorem nodupKeys_setA {κ α : Type} [DecidableEq κ] {l : List (κ × α)} (k : κ) (v : α)
    (h : NodupKeys l) : NodupKeys (setA l k v) := by
  unfold NodupKeys at *
  rw [keys_setA]
  by_cases hm : k ∈ l.map Prod.fst
  · simpa [hm]
  · simpa [hm, List.nodup_append]

theorem removeA_sublist {κ α : Type} [DecidableEq κ] (l : List (κ × α)) (k : κ) :
    (removeA l k).Sublist l := by
  induction l with
  | nil => simp [removeA]
  | cons p rest ih =>
    obtain ⟨k₀, v₀⟩ := p
    simp only [removeA]
    by_cases h : k₀ = k
    · simp [h]
    · simp only [if_neg h]
      exact ih.cons₂ _

theorem nodupKeys_removeA {κ α : Type} [DecidableEq κ] {l : List (κ × α)} (k : κ)
    (h : NodupKeys l) : NodupKeys (removeA l k) :=
  ((removeA_sublist l k).map Prod.fst).nodup h

theorem setA_self {κ α : Type} [DecidableEq κ] {l : List (κ × α)} {k : κ} {v : α}
    (h : lookupA l k = some v) : setA l k v = l := by
  induction l with
  | nil => simp at h
  | cons p rest ih =>
    obtain ⟨k₀, v₀⟩ := p
    simp only [setA]
    by_cases hk : k₀ = k
    · subst hk
      simp at h
      simp [h]
    · simp [hk] at h
      simp [hk, ih h]

theorem mem_addSet {l : List Nat} {x y : Nat} : y ∈ addSet l x ↔ y ∈ l ∨ y = x := by
  by_cases h : x ∈ l
  · simp only [addSet, if_pos h]
    exact ⟨Or.inl, fun hy => hy.elim id fun e => e ▸ h⟩
  · simp [addSet, if_neg h]

theorem addSet_of_mem {l : List Nat} {x : Nat} (h : x ∈ l) : addSet l x = l := by
  simp [addSet, h]

theorem mem_delSet {l : List Nat} {x y : Nat} : y ∈ delSet l x ↔ y ∈ l ∧ y ≠ x := by
  simp [delSet]


/-- C3 counterexample: the reconciler's echo check matches on URL only. An
incoming tab_shared record for the same URL in a different group (group 2),
with a timestamp equal to an existing record's (group 1), is silently
discarded as an echo, although the claim (matching on URL and group
identifier, otherwise append) requires it to be appended. -/
theorem handleSharedTab_cross_group_discarded :
    handleSharedTab [⟨"a", "u", 1, 0⟩] ⟨"a", "u", 2, 0⟩ =
      ([⟨"a", "u", 1, 0⟩], DedupOutcome.echo) ∧
    (handleSharedTab [⟨"a", "u", 1, 0⟩] ⟨"a", "u", 2, 0⟩).1 ≠
      [⟨"a", "u", 1, 0⟩, ⟨"a", "u", 2, 0⟩] := by
  decide

/-- C3 amended: the duplicate branch fires iff some existing record has the
same URL and group with a timestamp more than 1000 ms away (user-visible
notice, collection unchanged); the echo branch fires iff no duplicate match
exists but some record with the same URL in ANY group is within 1000 ms
(silent, collection unchanged); the record is appended iff neither match
exists. -/
theorem handleSharedTab_spec (sharedTabs : List TabRec) (t : TabRec) :
    (handleSharedTab sharedTabs t = (sharedTabs, DedupOutcome.duplicate) ↔
      ∃ x ∈ sharedTabs, dupMatch x t) ∧
    (handleSharedTab sharedTabs t = (sharedTabs, DedupOutcome.echo) ↔
      (¬ ∃ x ∈ sharedTabs, dupMatch x t) ∧ ∃ x ∈ sharedTabs, echoMatch x t) ∧
    (handleSharedTab sharedTabs t = (sharedTabs ++ [t], DedupOutcome.added) ↔
      (¬ ∃ x ∈ sharedTabs, dupMatch x t) ∧ ¬ ∃ x ∈ sharedTabs, echoMatch x t) := by
  unfold handleSharedTab
  split_ifs with h1 h2 <;> refine ⟨?_, ?_, ?_⟩ <;> simp_all

/-- C4 counterexample: response B (clusters named "B") arrives and is
published; a stale response A for an older tab set then arrives and
overwrites the published state, which ends as A's clusters, not B's. -/
theorem handleTabsCategorized_stale_overwrites :
    applyResponses [] [⟨none, some [⟨"B", [], "tb"⟩]⟩] = [⟨"B", [], "tb"⟩] ∧
    applyResponses [] [⟨none, some [⟨"B", [], "tb"⟩]⟩, ⟨none, some [⟨"A", [], "ta"⟩]⟩] =
      [⟨"A", [], "ta"⟩] ∧
    ([⟨"A", [], "ta"⟩] : List Cluster) ≠ [⟨"B", [], "tb"⟩] := by
  decide

/-- C4 amended: handleTabsCategorized applies every well-formed response
unconditionally on arrival (there is no sequence number or stale-response
suppression), so the published cluster state is the most recently arrived
response, even when it was computed for an older tab set. -/
theorem handleTabsCategorized_overwrites (aiClusters cs : List Cluster) (data : CatData)
    (he : data.error = none) (hc : data.clusters = some cs) :
    handleTabsCategorized aiClusters data = cs := by
  simp [handleTabsCategorized, he, hc]

/-- C4 amended witness at a concrete input. -/
theorem handleTabsCategorized_overwrites_witness :
    handleTabsCategorized [⟨"B", [], "tb"⟩] ⟨none, some [⟨"A", [], "ta"⟩]⟩ =
      [⟨"A", [], "ta"⟩] :=
  handleTabsCategorized_overwrites _ _ _ rfl rfl

/-- C1 counterexample: the classifier response validation drops tabs instead
of routing them to a default cluster. With two tabs and a response referencing
indices 0 and 5 (5 out of range, tab 1 omitted), the published partition
consists of one cluster holding tab 0 only; tab 1 is referenced nowhere. -/
theorem convertClusters_drops_tab :
    convertClusters [⟨"t0", "u0", 1, 0⟩, ⟨"t1", "u1", 1, 0⟩] [⟨"A", [0, 5], some "th"⟩] =
      [⟨"A", [⟨"t0", "u0", 1, 0⟩], "th"⟩] ∧
    ¬ ∃ c ∈ convertClusters [⟨"t0", "u0", 1, 0⟩, ⟨"t1", "u1", 1, 0⟩]
        [⟨"A", [0, 5], some "th"⟩],
        (⟨"t1", "u1", 1, 0⟩ : TabRec) ∈ c.tabs := by
  decide

/-- C1 amended: the validation is sound but not covering. Every cluster of the
published partition is non-empty and each of its tabs resolves from an
in-range index of the corresponding response cluster; indices that are out of
range or not returned are dropped (no default/"Other" cluster exists), and the
empty-clusters response publishes the empty partition. -/
theorem convertClusters_sound (tabs : List TabRec) (parsed : List RespCluster) :
    (∀ c ∈ convertClusters tabs parsed, c.tabs ≠ [] ∧
      ∀ t ∈ c.tabs, ∃ rc ∈ parsed, ∃ i ∈ rc.tabs, jsGet tabs i = some t) ∧
    convertClusters tabs [] = [] := by
  refine ⟨?_, rfl⟩
  intro c hc
  simp only [convertClusters, List.mem_filter, List.mem_map] at hc
  obtain ⟨⟨rc, hrc, rfl⟩, hlen⟩ := hc
  refine ⟨?_, ?_⟩
  · simp only [decide_eq_true_eq] at hlen
    exact List.ne_nil_of_length_pos hlen
  · intro t ht
    simp only [List.mem_filterMap, List.mem_map, id] at ht
    obtain ⟨o, ⟨i, hi, rfl⟩, ho⟩ := ht
    exact ⟨rc, hrc, i, hi, ho⟩

/-- C1 amended witness: at a concrete one-tab input, the single published tab
resolves from a returned in-range index. -/
theorem convertClusters_sound_witness :
    ∃ rc ∈ [(⟨"A", [0], some "th"⟩ : RespCluster)], ∃ i ∈ rc.tabs,
      jsGet [⟨"t0", "u0", 1, 0⟩] i = some ⟨"t0", "u0", 1, 0⟩ :=
  ((convertClusters_sound [⟨"t0", "u0", 1, 0⟩] [⟨"A", [0], some "th"⟩]).1
    ⟨"A", [⟨"t0", "u0", 1, 0⟩], "th"⟩ (by decide)).2
    ⟨"t0", "u0", 1, 0⟩ (by decide)

/-- C2 counterexample: a group (id 5) with one member (client 0) and a
non-empty shared-tab history is deleted immediately by handleLeaveGroup when
its last member leaves — it is not retained for the sweeper's 1-hour grace
window, and its history is gone. -/
theorem leaveGroup_deletes_emptied_group :
    (∃ g, lookupA exState2.groups 5 = some g ∧ g.sharedTabs ≠ []) ∧
    lookupA (handleLeaveGroup exState2 0 5).1.groups 5 = none := by
  decide

/-- C2 amended: when a leave_group removes the last member of a group, the
group is deleted from the registry immediately, together with its shared-tab
history; the sweeper's 1-hour grace window never applies to a group emptied
through handleLeaveGroup. -/
theorem leaveGroup_empty_removes_group (s : ServerState) (clientId groupId : Nat)
    (client : Client) (group : Group) (hnd : NodupKeys s.groups)
    (hc : lookupA s.clients clientId = some client)
    (hg : lookupA s.groups groupId = some group)
    (hdel : delSet group.members clientId = []) :
    lookupA (handleLeaveGroup s clientId groupId).1.groups groupId = none := by
  unfold handleLeaveGroup
  rw [hc, hg]
  simp only [hdel, List.length_nil, if_pos rfl]
  exact lookupA_removeA_self _ _ (nodupKeys_setA _ _ hnd)

/-- C2 amended witness at a concrete one-member group. -/
theorem leaveGroup_empty_removes_group_witness :
    lookupA (handleLeaveGroup exState2 0 5).1.groups 5 = none :=
  leaveGroup_empty_removes_group exState2 0 5 exClient exGroup2 (by decide) (by decide)
    (by decide) (by decide)

/-- C9: operations with an unknown connection id, and leave/broadcast with an
unknown group id, are no-ops: the registries are returned unchanged and no
message is sent. (All handlers are total functions in this embedding; the
source reaches the same exits through early returns, raising nothing.) -/
theorem unknown_ids_are_noops (s : ServerState) (clientId groupId : Nat) (m : InMsg)
    (now : Nat) (msg : Msg) (excl : Option Nat) :
    (lookupA s.clients clientId = none → handleMessage s clientId m now = (s, [])) ∧
    (lookupA s.groups groupId = none → handleLeaveGroup s clientId groupId = (s, [])) ∧
    (lookupA s.groups groupId = none → broadcastToGroup s groupId msg excl = []) := by
  refine ⟨?_, ?_, ?_⟩
  · intro h
    simp [handleMessage, h]
  · intro h
    rcases hc : lookupA s.clients clientId with _ | c <;> simp [handleLeaveGroup, h, hc]
  · intro h
    simp [broadcastToGroup, h]

/-- C9 witness: concrete no-ops on the empty registry state. -/
theorem unknown_ids_are_noops_witness :
    handleMessage { clients := [], groups := [] } 7 (InMsg.joinGroup 5) 3 =
      ({ clients := [], groups := [] }, []) ∧
    handleLeaveGroup { clients := [], groups := [] } 7 5 =
      ({ clients := [], groups := [] }, []) ∧
    broadcastToGroup { clients := [], groups := [] } 5 Msg.pong none = [] :=
  ⟨(unknown_ids_are_noops ⟨[], []⟩ 7 5 (InMsg.joinGroup 5) 3 Msg.pong none).1 rfl,
    (unknown_ids_are_noops ⟨[], []⟩ 7 5 (InMsg.joinGroup 5) 3 Msg.pong none).2.1 rfl,
    (unknown_ids_are_noops ⟨[], []⟩ 7 5 (InMsg.joinGroup 5) 3 Msg.pong none).2.2 rfl⟩


@[simp] theorem clientEta (c : Client) : (⟨c.wsOpen, c.groups, c.lastSeen⟩ : Client) = c := rfl

@[simp] theorem groupEta (g : Group) :
    (⟨g.members, g.sharedTabs, g.annotations, g.created⟩ : Group) = g := rfl

@[simp] theorem serverStateEta (s : ServerState) : (⟨s.clients, s.groups⟩ : ServerState) = s := rfl


theorem pushBounded_foldl (recs : List SRecord) :
    recs.foldl pushBounded [] = recs.drop (recs.length - 100) := by
  induction recs using List.reverseRecOn with
  | nil => rfl
  | append_singleton l r ih =>
    rw [List.foldl_append, List.foldl_cons, List.foldl_nil, ih]
    by_cases hl : 100 ≤ l.length
    · have hdlen : (l.drop (l.length - 100)).length = 100 := by
        rw [List.length_drop]; omega
      have h1 : pushBounded (l.drop (l.length - 100)) r =
          ((l.drop (l.length - 100)) ++ [r]).drop 1 := by
        simp only [pushBounded]
        rw [if_pos (by simp only [List.length_append, hdlen, List.length_singleton]; omega)]
        have hidx : ((l.drop (l.length - 100)) ++ [r]).length - 100 = 1 := by
          simp only [List.length_append, hdlen, List.length_singleton]
        rw [hidx]
      have h2 : ((l.drop (l.length - 100)) ++ [r]).drop 1 =
          (l.drop (l.length - 100)).drop 1 ++ [r] :=
        List.drop_append_of_le_length (by omega)
      have h3 : (l.drop (l.length - 100)).drop 1 = l.drop (l.length - 100 + 1) :=
        List.drop_drop 1 (l.length - 100) l
      have h5 : (l ++ [r]).drop (l.length + 1 - 100) =
          l.drop (l.length + 1 - 100) ++ [r] :=
        List.drop_append_of_le_length (by omega)
      have h6 : l.length - 100 + 1 = l.length + 1 - 100 := by omega
      calc pushBounded (l.drop (l.length - 100)) r
          = l.drop (l.length - 100 + 1) ++ [r] := by rw [h1, h2, h3]
        _ = l.drop (l.length + 1 - 100) ++ [r] := by rw [h6]
        _ = (l ++ [r]).drop (l.length + 1 - 100) := h5.symm
        _ = (l ++ [r]).drop ((l ++ [r]).length - 100) := by
            rw [List.length_append, List.length_singleton]
    · have h0 : l.length - 100 = 0 := by omega
      rw [h0, List.drop_zero]
      simp only [pushBounded]
      rw [if_neg (by simp only [List.length_append, List.length_singleton]; omega)]
      have h1 : (l ++ [r]).length - 100 = 0 := by
        simp only [List.length_append, List.length_singleton]; omega
      rw [h1, List.drop_zero]

theorem handleShareTab_state (s : ServerState) (clientId groupId : Nat) (client : Client)
    (group : Group) (tabData : TabPayload) (now : Nat)
    (hc : lookupA s.clients clientId = some client) (hcg : client.groups = [groupId])
    (hg : lookupA s.groups groupId = some group) :
    (handleShareTab s clientId tabData now).1 =
      { s with groups := setA s.groups groupId (shareUpd group tabData clientId now) } := by
  simp only [handleShareTab, hc, hcg]
  simp [hg, shareUpd]

theorem shareSeq_history (groupId : Nat) (shares : List (Nat × TabPayload × Nat)) :
    ∀ (s : ServerState) (group : Group),
      (∀ x ∈ shares, ∃ c, lookupA s.clients x.1 = some c ∧ c.groups = [groupId]) →
      lookupA s.groups groupId = some group →
      (shareSeq s shares).clients = s.clients ∧
      lookupA (shareSeq s shares).groups groupId = some (histAfter group (stamped shares)) := by
  induction shares with
  | nil =>
    intro s group _ hg
    refine ⟨rfl, ?_⟩
    simpa [shareSeq, stamped, histAfter] using hg
  | cons x rest ih =>
    intro s group hall hg
    obtain ⟨c, hc, hcg⟩ := hall x (List.mem_cons_self _ _)
    have hstep := handleShareTab_state s x.1 groupId c group x.2.1 x.2.2 hc hcg hg
    have hseq : shareSeq s (x :: rest) = shareSeq (handleShareTab s x.1 x.2.1 x.2.2).1 rest := by
      simp [shareSeq]
    rw [hseq, hstep]
    have hall' : ∀ y ∈ rest, ∃ c',
        lookupA ({ s with groups := setA s.groups groupId (shareUpd group x.2.1 x.1 x.2.2) }
          : ServerState).clients y.1 = some c' ∧ c'.groups = [groupId] :=
      fun y hy => hall y (List.mem_cons_of_mem _ hy)
    have hg' : lookupA ({ s with groups := setA s.groups groupId (shareUpd group x.2.1 x.1 x.2.2) }
        : ServerState).groups groupId = some (shareUpd group x.2.1 x.1 x.2.2) := by
      simp [lookupA_setA]
    obtain ⟨hcl, hlook⟩ := ih _ _ hall' hg'
    refine ⟨hcl, ?_⟩
    rw [hlook]
    simp [histAfter, shareUpd, stamped, List.foldl_cons]

/-- C5: delivering a sequence of more than 100 share_tab operations into a
group (each sender being a member of exactly that group) leaves the group's
history at length exactly 100, holding the 100 most recent stamped records in
arrival order (the oldest were evicted first). -/
theorem shareTab_history_bound (s : ServerState) (groupId : Nat) (group : Group)
    (shares : List (Nat × TabPayload × Nat))
    (hall : ∀ x ∈ shares, ∃ c, lookupA s.clients x.1 = some c ∧ c.groups = [groupId])
    (hg : lookupA s.groups groupId = some group) (hempty : group.sharedTabs = [])
    (hlen : 100 < shares.length) :
    ∃ g2, lookupA (shareSeq s shares).groups groupId = some g2 ∧
      g2.sharedTabs.length = 100 ∧
      g2.sharedTabs = (stamped shares).drop (shares.length - 100) := by
  obtain ⟨-, hl⟩ := shareSeq_history groupId shares s group hall hg
  refine ⟨_, hl, ?_, ?_⟩
  · simp only [histAfter, hempty, pushBounded_foldl, List.length_drop, stamped,
      List.length_map]
    omega
  · simp [histAfter, hempty, pushBounded_foldl, stamped, List.length_map]

/-- C5 witness: 101 concrete shares into group 5 of a concrete state. -/
theorem shareTab_history_bound_witness :
    ∃ g2, lookupA (shareSeq exState5 exShares).groups 5 = some g2 ∧
      g2.sharedTabs.length = 100 ∧
      g2.sharedTabs = (stamped exShares).drop (exShares.length - 100) :=
  shareTab_history_bound exState5 5 ⟨[0], [], [], 0⟩ exShares
    (by
      intro x hx
      simp only [exShares, List.mem_map] at hx
      obtain ⟨i, -, rfl⟩ := hx
      exact ⟨exClient, rfl, rfl⟩)
    rfl rfl (by simp [exShares])

/-- C8: re-issuing join_group for a connection that is already a member of the
group leaves both registries — hence the group's member set, shared-tab
history, annotation log, and the connection's joined-group set — unchanged. -/
theorem joinGroup_idempotent (s : ServerState) (clientId groupId now : Nat)
    (client : Client) (group : Group)
    (hc : lookupA s.clients clientId = some client)
    (hg : lookupA s.groups groupId = some group)
    (hmem : clientId ∈ group.members) (hgrp : groupId ∈ client.groups) :
    (handleJoinGroup s clientId groupId now).1 = s := by
  unfold handleJoinGroup
  rw [hc]
  simp only [hg, Option.isSome_some, if_true]
  simp [addSet_of_mem hmem, addSet_of_mem hgrp, setA_self hg, setA_self hc]

/-- C8 witness: joining again at a concrete state where client 0 is already a
member of group 5. -/
theorem joinGroup_idempotent_witness : (handleJoinGroup exState2 0 5 99).1 = exState2 :=
  joinGroup_idempotent exState2 0 5 99 exClient exGroup2 (by decide) (by decide)
    (by decide) (by decide)


theorem clusterUpdate_state (s : ServerState) (clientId : Nat) (data : String) :
    (handleClusterUpdate s clientId data).1 = s := by
  unfold handleClusterUpdate
  cases lookupA s.clients clientId <;> rfl

theorem foldl_preserve (P : ServerState → Prop)
    (f : ServerState × List (Nat × Msg) → Nat → ServerState × List (Nat × Msg))
    (hf : ∀ acc g, P acc.1 → P (f acc g).1) (L : List Nat) :
    ∀ acc, P acc.1 → P ((L.foldl f acc).1) := by
  induction L with
  | nil => intro acc h; exact h
  | cons g rest ih => intro acc h; exact ih _ (hf _ _ h)

theorem handleShareTab_clients (s : ServerState) (clientId : Nat) (tabData : TabPayload)
    (now : Nat) : (handleShareTab s clientId tabData now).1.clients = s.clients := by
  unfold handleShareTab
  cases hc : lookupA s.clients clientId with
  | none => rfl
  | some client =>
    exact foldl_preserve (fun st => st.clients = s.clients) _
      (fun acc gid h => by cases hg : lookupA acc.1.groups gid <;> simp [hg, h])
      client.groups (s, []) rfl

theorem annotationEvent_clients (s : ServerState) (clientId : Nat) (data : String)
    (now : Nat) : (handleAnnotationEvent s clientId data now).1.clients = s.clients := by
  unfold handleAnnotationEvent
  cases hc : lookupA s.clients clientId with
  | none => rfl
  | some client =>
    exact foldl_preserve (fun st => st.clients = s.clients) _
      (fun acc gid h => by cases hg : lookupA acc.1.groups gid <;> simp [hg, h])
      client.groups (s, []) rfl

theorem heartbeat_lastSeen (s : ServerState) (clientId now : Nat) (client : Client)
    (hc : lookupA s.clients clientId = some client) (hnow : client.lastSeen = now) :
    ∃ c', lookupA (handleHeartbeat s clientId now).1.clients clientId = some c' ∧
      c'.lastSeen = now := by
  unfold handleHeartbeat
  rw [hc]
  dsimp only
  by_cases hw : client.wsOpen = true
  · rw [if_pos hw]
    exact ⟨{ client with lastSeen := now }, by simp [lookupA_setA], rfl⟩
  · rw [if_neg hw]
    exact ⟨client, hc, hnow⟩

theorem joinGroup_lastSeen (s : ServerState) (clientId groupId now' : Nat) (client : Client)
    (hc : lookupA s.clients clientId = some client) :
    ∃ c', lookupA (handleJoinGroup s clientId groupId now').1.clients clientId = some c' ∧
      c'.lastSeen = client.lastSeen := by
  unfold handleJoinGroup
  rw [hc]
  dsimp only
  cases hm : lookupA (if (lookupA s.groups groupId).isSome then s.groups
      else setA s.groups groupId ⟨[], [], [], now'⟩) groupId with
  | none => exact ⟨client, hc, rfl⟩
  | some g =>
    exact ⟨{ client with groups := addSet client.groups groupId }, by simp [lookupA_setA],
      rfl⟩

theorem leaveGroup_lastSeen (s : ServerState) (clientId groupId : Nat) (client : Client)
    (hc : lookupA s.clients clientId = some client) :
    ∃ c', lookupA (handleLeaveGroup s clientId groupId).1.clients clientId = some c' ∧
      c'.lastSeen = client.lastSeen := by
  unfold handleLeaveGroup
  rw [hc]
  cases hg : lookupA s.groups groupId with
  | none => exact ⟨client, hc, rfl⟩
  | some g =>
    dsimp only
    split_ifs with hlen
    · exact ⟨{ client with groups := delSet client.groups groupId }, by simp [lookupA_setA],
        rfl⟩
    · exact ⟨{ client with groups := delSet client.groups groupId }, by simp [lookupA_setA],
        rfl⟩

theorem handleMessage_lastSeen (s : ServerState) (clientId : Nat) (client : Client)
    (m : InMsg) (now : Nat) (hc : lookupA s.clients clientId = some client) :
    ∃ c', lookupA (handleMessage s clientId m now).1.clients clientId = some c' ∧
      c'.lastSeen = now := by
  unfold handleMessage
  rw [hc]
  dsimp only
  have hc1 : lookupA
      ({ s with clients := setA s.clients clientId { client with lastSeen := now } }
        : ServerState).clients clientId =
      some { client with lastSeen := now } := by simp [lookupA_setA]
  cases m with
  | heartbeat => exact heartbeat_lastSeen _ clientId now _ hc1 rfl
  | joinGroup gid => exact joinGroup_lastSeen _ clientId gid now _ hc1
  | leaveGroup gid => exact leaveGroup_lastSeen _ clientId gid _ hc1
  | shareTab d => exact ⟨_, by rw [handleShareTab_clients]; exact hc1, rfl⟩
  | annotationCreated d => exact ⟨_, by rw [annotationEvent_clients]; exact hc1, rfl⟩
  | aiClusterUpdate d => exact ⟨_, by rw [clusterUpdate_state]; exact hc1, rfl⟩
  | unknown t => exact ⟨_, hc1, rfl⟩

theorem leaveGroup_clients_other (s : ServerState) (cid' gid cid : Nat) (h : cid' ≠ cid) :
    lookupA (handleLeaveGroup s cid' gid).1.clients cid = lookupA s.clients cid := by
  unfold handleLeaveGroup
  cases hcl : lookupA s.clients cid' with
  | none => cases lookupA s.groups gid <;> rfl
  | some c' =>
    cases hg : lookupA s.groups gid with
    | none => rfl
    | some g =>
      dsimp only
      split_ifs <;> simp [lookupA_setA, h]

theorem disconnect_clients_other (s : ServerState) (cid' cid : Nat) (h : cid' ≠ cid) :
    lookupA (handleClientDisconnect s cid').1.clients cid = lookupA s.clients cid := by
  unfold handleClientDisconnect
  cases hcl : lookupA s.clients cid' with
  | none => rfl
  | some c' =>
    dsimp only
    rw [lookupA_removeA_ne _ _ _ h]
    exact foldl_preserve (fun st => lookupA st.clients cid = lookupA s.clients cid) _
      (fun acc gid hacc => by
        dsimp only
        rw [leaveGroup_clients_other _ _ _ _ h]
        exact hacc)
      c'.groups (s, []) rfl

theorem foldl_disconnect_other (cid : Nat) (L : List Nat) :
    ∀ s : ServerState, cid ∉ L →
      lookupA (L.foldl (fun st clientId => (handleClientDisconnect st clientId).1) s).clients
          cid =
        lookupA s.clients cid := by
  induction L with
  | nil => intro s _; rfl
  | cons c' rest ih =>
    intro s h
    simp only [List.mem_cons, not_or] at h
    rw [List.foldl_cons, ih _ h.2, disconnect_clients_other _ _ _ fun e => h.1 e.symm]

/-- C10: any inbound envelope from a registered connection — of any type,
including unrecognized ones — sets the connection's lastSeen to the current
time; and the sweeper keeps any connection whose silence is within the
5-minute window, so eviction happens only after 5 minutes of total silence. -/
theorem inbound_refreshes_liveness (s : ServerState) (clientId : Nat) (client : Client)
    (m : InMsg) (now : Nat) (hc : lookupA s.clients clientId = some client)
    (hnd : NodupKeys s.clients) :
    (∃ c', lookupA (handleMessage s clientId m now).1.clients clientId = some c' ∧
      c'.lastSeen = now) ∧
    (now - client.lastSeen ≤ 5 * 60 * 1000 →
      lookupA (cleanup s now).clients clientId = some client) := by
  refine ⟨handleMessage_lastSeen s clientId client m now hc, ?_⟩
  intro hfresh
  unfold cleanup
  dsimp only
  have hnotin : clientId ∉
      ((s.clients.filter fun p => decide (5 * 60 * 1000 < now - p.2.lastSeen)).map
        Prod.fst) := by
    intro hmem
    simp only [List.mem_map, List.mem_filter] at hmem
    obtain ⟨⟨k, v⟩, ⟨hmem', hpred⟩, hfst⟩ := hmem
    simp only at hfst
    subst hfst
    have hlook := lookupA_of_mem hnd hmem'
    rw [hc] at hlook
    injection hlook with hv
    rw [← hv] at hpred
    simp only [decide_eq_true_eq] at hpred
    omega
  exact (foldl_disconnect_other clientId _ s hnotin).trans hc

/-- C10 witness: an unrecognized envelope type refreshes lastSeen of client 0
in a concrete state, and the sweeper keeps the still-fresh client. -/
theorem inbound_refreshes_liveness_witness :
    (∃ c', lookupA (handleMessage exState2 0 (InMsg.unknown "bogus") 50).1.clients 0 =
        some c' ∧ c'.lastSeen = 50) ∧
    lookupA (cleanup exState2 50).clients 0 = some exClient :=
  ⟨(inbound_refreshes_liveness exState2 0 exClient (InMsg.unknown "bogus") 50 (by decide)
      (by decide)).1,
    (inbound_refreshes_liveness exState2 0 exClient (InMsg.unknown "bogus") 50 (by decide)
      (by decide)).2 (by decide)⟩


theorem lookupA_addToGroup (gs : List (String × List TabRec)) (k k' : String)
    (tab : TabRec) :
    lookupA (addToGroup gs k tab) k' =
      if k = k' then some ((lookupA gs k).getD [] ++ [tab]) else lookupA gs k' := by
  induction gs with
  | nil => by_cases h : k = k' <;> simp [addToGroup, h]
  | cons p rest ih =>
    obtain ⟨k₀, ts⟩ := p
    simp only [addToGroup]
    by_cases h₀ : k₀ = k
    · subst h₀
      by_cases h : k₀ = k' <;> simp [h]
    · by_cases h' : k₀ = k'
      · subst h'
        have hk : ¬ k = k₀ := fun e => h₀ e.symm
        simp [h₀, hk]
      · simp [h₀, h', ih]

theorem keys_addToGroup (gs : List (String × List TabRec)) (k : String) (tab : TabRec) :
    (addToGroup gs k tab).map Prod.fst =
      if k ∈ gs.map Prod.fst then gs.map Prod.fst else gs.map Prod.fst ++ [k] := by
  induction gs with
  | nil => simp [addToGroup]
  | cons p rest ih =>
    obtain ⟨k₀, ts⟩ := p
    simp only [addToGroup]
    by_cases h₀ : k₀ = k
    · subst h₀; simp
    · have hk : ¬ k = k₀ := fun e => h₀ e.symm
      by_cases hm : k ∈ rest.map Prod.fst <;> simp [h₀, hk, hm, ih]

theorem domainGroups_lookup (parseHost : String → Option String) (tabs : List TabRec) :
    ((domainGroups parseHost tabs).map Prod.fst).Nodup ∧
    ∀ k, lookupA (domainGroups parseHost tabs) k =
      if tabs.filter (fun t => hostKey parseHost t = k) = [] then none
      else some (tabs.filter fun t => hostKey parseHost t = k) := by
  induction tabs using List.reverseRecOn with
  | nil =>
    refine ⟨by simp [domainGroups], fun k => by simp [domainGroups]⟩
  | append_singleton l t ih =>
    obtain ⟨ihn, ihl⟩ := ih
    have hd : domainGroups parseHost (l ++ [t]) =
        addToGroup (domainGroups parseHost l) (hostKey parseHost t) t := by
      simp [domainGroups, List.foldl_append]
    refine ⟨?_, ?_⟩
    · rw [hd, keys_addToGroup]
      by_cases hm : hostKey parseHost t ∈ (domainGroups parseHost l).map Prod.fst
      · simpa [hm] using ihn
      · simp [hm, List.nodup_append, ihn]
    · intro k
      rw [hd, lookupA_addToGroup]
      by_cases hk : hostKey parseHost t = k
      · subst hk
        rw [if_pos rfl, ihl]
        have hf : (l ++ [t]).filter (fun x => hostKey parseHost x = hostKey parseHost t) =
            l.filter (fun x => hostKey parseHost x = hostKey parseHost t) ++ [t] := by
          simp [List.filter_append]
        rw [hf]
        by_cases he : l.filter (fun x => hostKey parseHost x = hostKey parseHost t) = []
        · simp [he]
        · simp [he]
      · rw [if_neg hk, ihl k]
        have hf : (l ++ [t]).filter (fun x => hostKey parseHost x = k) =
            l.filter (fun x => hostKey parseHost x = k) := by
          simp [List.filter_append, hk]
        rw [hf]

/-- C7: the fallback grouping is a deterministic partition keyed by URL host.
Cluster names are pairwise distinct; each cluster is non-empty and themed
"Content from " plus its host name; every tab of the input appears in the
cluster named by its host key (its URL's hostname, or "Other" when the URL is
unparsable) and in no other cluster; and clusters hold only input tabs. The
one-tab case is the singleton instance of the universally quantified input. -/
theorem simpleGroupByDomain_partition (parseHost : String → Option String)
    (tabs : List TabRec) :
    ((simpleGroupByDomain parseHost tabs).map Cluster.name).Nodup ∧
    (∀ c ∈ simpleGroupByDomain parseHost tabs,
      c.theme = "Content from " ++ c.name ∧ c.tabs ≠ []) ∧
    (∀ t ∈ tabs, ∃ c ∈ simpleGroupByDomain parseHost tabs,
      c.name = hostKey parseHost t ∧ t ∈ c.tabs) ∧
    (∀ c ∈ simpleGroupByDomain parseHost tabs, ∀ t ∈ c.tabs,
      t ∈ tabs ∧ c.name = hostKey parseHost t) ∧
    (∀ c₁ ∈ simpleGroupByDomain parseHost tabs, ∀ c₂ ∈ simpleGroupByDomain parseHost tabs,
      ∀ t : TabRec, t ∈ c₁.tabs → t ∈ c₂.tabs → c₁ = c₂) := by
  obtain ⟨hnd, hlook⟩ := domainGroups_lookup parseHost tabs
  have hmemgs : ∀ p ∈ domainGroups parseHost tabs,
      p.2 = tabs.filter (fun t => hostKey parseHost t = p.1) ∧ p.2 ≠ [] := by
    rintro ⟨k, v⟩ hp
    dsimp only
    have hl := lookupA_of_mem hnd hp
    rw [hlook k] at hl
    by_cases he : tabs.filter (fun t => hostKey parseHost t = k) = []
    · rw [if_pos he] at hl; cases hl
    · rw [if_neg he] at hl
      injection hl with h
      exact ⟨h.symm, h.symm ▸ he⟩
  refine ⟨?_, ?_, ?_, ?_, ?_⟩
  · have : (simpleGroupByDomain parseHost tabs).map Cluster.name =
        (domainGroups parseHost tabs).map Prod.fst := by
      simp [simpleGroupByDomain, List.map_map, Function.comp]
    rw [this]; exact hnd
  · intro c hc
    simp only [simpleGroupByDomain, List.mem_map] at hc
    obtain ⟨p, hp, rfl⟩ := hc
    exact ⟨rfl, (hmemgs p hp).2⟩
  · intro t ht
    have hne : tabs.filter (fun x => hostKey parseHost x = hostKey parseHost t) ≠ [] := by
      intro he
      have : t ∈ tabs.filter (fun x => hostKey parseHost x = hostKey parseHost t) := by
        simp [List.mem_filter, ht]
      rw [he] at this
      simp at this
    have hl := hlook (hostKey parseHost t)
    rw [if_neg hne] at hl
    have hpmem := mem_of_lookupA hl
    refine ⟨(⟨hostKey parseHost t,
        tabs.filter (fun x => hostKey parseHost x = hostKey parseHost t),
        "Content from " ++ hostKey parseHost t⟩ : Cluster), ?_, rfl, ?_⟩
    · simp only [simpleGroupByDomain, List.mem_map]
      exact ⟨_, hpmem, rfl⟩
    · simp [List.mem_filter, ht]
  · intro c hc t ht
    simp only [simpleGroupByDomain, List.mem_map] at hc
    obtain ⟨p, hp, rfl⟩ := hc
    have hch := (hmemgs p hp).1
    simp only at ht
    rw [hch] at ht
    simp only [List.mem_filter, decide_eq_true_eq] at ht
    exact ⟨ht.1, ht.2.symm⟩
  · intro c₁ hc₁ c₂ hc₂ t ht₁ ht₂
    simp only [simpleGroupByDomain, List.mem_map] at hc₁ hc₂
    obtain ⟨p₁, hp₁, rfl⟩ := hc₁
    obtain ⟨p₂, hp₂, rfl⟩ := hc₂
    obtain ⟨hch₁, -⟩ := hmemgs p₁ hp₁
    obtain ⟨hch₂, -⟩ := hmemgs p₂ hp₂
    simp only at ht₁ ht₂
    rw [hch₁] at ht₁
    rw [hch₂] at ht₂
    simp only [List.mem_filter, decide_eq_true_eq] at ht₁ ht₂
    have hk : p₁.1 = p₂.1 := by rw [← ht₁.2, ← ht₂.2]
    simp only [hk]
    congr 1
    rw [hch₁, hch₂, hk]

/-- C7 witness: the one-tab case at a concrete host parser publishes the tab
in the cluster named by its hostname. -/
theorem simpleGroupByDomain_partition_witness :
    ∃ c ∈ simpleGroupByDomain
        (fun u => if u = "https://a.com/x" then some "a.com" else none)
        [⟨"t0", "https://a.com/x", 1, 0⟩],
      c.name = hostKey (fun u => if u = "https://a.com/x" then some "a.com" else none)
          ⟨"t0", "https://a.com/x", 1, 0⟩ ∧
        (⟨"t0", "https://a.com/x", 1, 0⟩ : TabRec) ∈ c.tabs :=
  (simpleGroupByDomain_partition
      (fun u => if u = "https://a.com/x" then some "a.com" else none)
      [⟨"t0", "https://a.com/x", 1, 0⟩]).2.2.1
    ⟨"t0", "https://a.com/x", 1, 0⟩ (by decide)


theorem symm_mem_iff {s : ServerState} {clientId : Nat} {c : Client} (hsym : SymmInv s)
    (hc : lookupA s.clients clientId = some c) (groupId : Nat) :
    (∃ g, lookupA s.groups groupId = some g ∧ clientId ∈ g.members) ↔
      groupId ∈ c.groups := by
  rw [hsym clientId groupId]
  constructor
  · rintro ⟨c₂, hc₂, hm⟩
    rw [hc] at hc₂
    injection hc₂ with e
    cases e
    exact hm
  · intro h
    exact ⟨c, hc, h⟩

theorem symm_group_iff {s : ServerState} {groupId : Nat} {g : Group} (hsym : SymmInv s)
    (hg : lookupA s.groups groupId = some g) (clientId : Nat) :
    clientId ∈ g.members ↔
      ∃ c, lookupA s.clients clientId = some c ∧ groupId ∈ c.groups := by
  rw [← hsym clientId groupId]
  constructor
  · intro h
    exact ⟨g, hg, h⟩
  · rintro ⟨g₂, hg₂, hm⟩
    rw [hg] at hg₂
    injection hg₂ with e
    cases e
    exact hm

theorem symm_group_none {s : ServerState} {groupId : Nat} (hsym : SymmInv s)
    (hg : lookupA s.groups groupId = none) (clientId : Nat) :
    ¬ ∃ c, lookupA s.clients clientId = some c ∧ groupId ∈ c.groups := by
  rw [← hsym clientId groupId]
  rintro ⟨g, hg₂, -⟩
  rw [hg] at hg₂
  cases hg₂

theorem setA_setA {κ α : Type} [DecidableEq κ] (l : List (κ × α)) (k : κ) (v w : α) :
    setA (setA l k v) k w = setA l k w := by
  induction l with
  | nil => simp [setA]
  | cons p rest ih =>
    obtain ⟨k₀, v₀⟩ := p
    by_cases h : k₀ = k
    · subst h; simp [setA]
    · simp [setA, h, ih]

theorem joinGroup_state (s : ServerState) (clientId groupId now : Nat) (client : Client)
    (hc : lookupA s.clients clientId = some client) :
    (handleJoinGroup s clientId groupId now).1 =
      { clients := setA s.clients clientId
          { client with groups := addSet client.groups groupId },
        groups := setA s.groups groupId
          { joinBase s groupId now with
            members := addSet (joinBase s groupId now).members clientId } } := by
  unfold handleJoinGroup
  rw [hc]
  dsimp only
  cases hg : lookupA s.groups groupId <;>
    simp [hg, lookupA_setA, setA_setA, joinBase]

theorem registryInv_join (s : ServerState) (clientId groupId now : Nat)
    (h : RegistryInv s) : RegistryInv (handleJoinGroup s clientId groupId now).1 := by
  obtain ⟨hndc, hndg, hsym⟩ := h
  cases hc : lookupA s.clients clientId with
  | none =>
    unfold handleJoinGroup
    rw [hc]
    exact ⟨hndc, hndg, hsym⟩
  | some c =>
    rw [joinGroup_state s clientId groupId now c hc]
    refine ⟨nodupKeys_setA _ _ hndc, nodupKeys_setA _ _ hndg, ?_⟩
    intro cid' gid'
    rw [lookupA_setA, lookupA_setA]
    by_cases hgid : groupId = gid'
    · subst hgid
      rw [if_pos rfl]
      by_cases hcid : clientId = cid'
      · subst hcid
        rw [if_pos rfl]
        simp [mem_addSet]
      · rw [if_neg hcid]
        simp only [Option.some.injEq, exists_eq_left', mem_addSet]
        have hne : ¬ cid' = clientId := fun e => hcid e.symm
        simp only [hne, or_false]
        cases hg : lookupA s.groups groupId with
        | some g =>
          have hb : joinBase s groupId now = g := by simp [joinBase, hg]
          rw [hb]
          exact symm_group_iff hsym hg cid'
        | none =>
          have hb : (joinBase s groupId now).members = [] := by simp [joinBase, hg]
          rw [hb]
          simp only [List.not_mem_nil, false_iff]
          exact symm_group_none hsym hg cid'
    · rw [if_neg hgid]
      by_cases hcid : clientId = cid'
      · subst hcid
        rw [if_pos rfl]
        simp only [Option.some.injEq, exists_eq_left', mem_addSet]
        have hne : ¬ gid' = groupId := fun e => hgid e.symm
        simp only [hne, or_false]
        exact symm_mem_iff hsym hc gid'
      · rw [if_neg hcid]
        exact hsym cid' gid'


theorem registryInv_leave (s : ServerState) (clientId groupId : Nat)
    (h : RegistryInv s) : RegistryInv (handleLeaveGroup s clientId groupId).1 := by
  obtain ⟨hndc, hndg, hsym⟩ := h
  unfold handleLeaveGroup
  cases hc : lookupA s.clients clientId with
  | none =>
    cases lookupA s.groups groupId <;> exact ⟨hndc, hndg, hsym⟩
  | some c =>
    cases hg : lookupA s.groups groupId with
    | none => exact ⟨hndc, hndg, hsym⟩
    | some g =>
      dsimp only
      have hs1 : RegistryInv
          ⟨setA s.clients clientId { c with groups := delSet c.groups groupId },
            setA s.groups groupId { g with members := delSet g.members clientId }⟩ := by
        refine ⟨nodupKeys_setA _ _ hndc, nodupKeys_setA _ _ hndg, ?_⟩
        intro cid' gid'
        rw [lookupA_setA, lookupA_setA]
        by_cases hgid : groupId = gid'
        · subst hgid
          rw [if_pos rfl]
          by_cases hcid : clientId = cid'
          · subst hcid
            rw [if_pos rfl]
            simp only [Option.some.injEq, exists_eq_left', mem_delSet]
            simp
          · rw [if_neg hcid]
            simp only [Option.some.injEq, exists_eq_left', mem_delSet]
            have hne : cid' ≠ clientId := fun e => hcid e.symm
            rw [and_iff_left hne]
            exact symm_group_iff hsym hg cid'
        · rw [if_neg hgid]
          by_cases hcid : clientId = cid'
          · subst hcid
            rw [if_pos rfl]
            simp only [Option.some.injEq, exists_eq_left', mem_delSet]
            have hne : gid' ≠ groupId := fun e => hgid e.symm
            rw [and_iff_left hne]
            exact symm_mem_iff hsym hc gid'
          · rw [if_neg hcid]
            exact hsym cid' gid'
      split_ifs with hlen
      · have hEmpty : delSet g.members clientId = [] := List.length_eq_zero.mp hlen
        refine ⟨hs1.1, nodupKeys_removeA _ hs1.2.1, ?_⟩
        intro cid' gid'
        by_cases hgid : groupId = gid'
        · subst hgid
          constructor
          · rintro ⟨g2, hg2, -⟩
            rw [lookupA_removeA_self _ _ hs1.2.1] at hg2
            cases hg2
          · rintro ⟨c2, hc2, hmem⟩
            rw [lookupA_setA] at hc2
            by_cases hcid : clientId = cid'
            · rw [if_pos hcid] at hc2
              injection hc2 with e
              cases e
              rw [mem_delSet] at hmem
              exact (hmem.2 rfl).elim
            · rw [if_neg hcid] at hc2
              obtain ⟨g2, hg2, hm2⟩ := (hsym cid' groupId).mpr ⟨c2, hc2, hmem⟩
              rw [hg] at hg2
              injection hg2 with e
              cases e
              have hmm : cid' ∈ delSet g.members clientId :=
                mem_delSet.mpr ⟨hm2, fun e => hcid e.symm⟩
              rw [hEmpty] at hmm
              cases hmm
        · have hrw : lookupA
              (removeA (setA s.groups groupId { g with members := delSet g.members clientId })
                groupId) gid' =
              lookupA (setA s.groups groupId { g with members := delSet g.members clientId })
                gid' :=
            lookupA_removeA_ne _ _ _ hgid
          rw [hrw]
          exact hs1.2.2 cid' gid'
      · exact hs1


theorem leaveGroup_self_groups (s : ServerState) (clientId groupId : Nat) (c : Client)
    (hc : lookupA s.clients clientId = some c) (hsym : SymmInv s) :
    ∃ c', lookupA (handleLeaveGroup s clientId groupId).1.clients clientId = some c' ∧
      ∀ gid, gid ∈ c'.groups → gid ∈ c.groups ∧ gid ≠ groupId := by
  unfold handleLeaveGroup
  rw [hc]
  cases hg : lookupA s.groups groupId with
  | none =>
    refine ⟨c, hc, ?_⟩
    intro gid hgm
    refine ⟨hgm, ?_⟩
    rintro rfl
    obtain ⟨g2, hg2, -⟩ := (hsym clientId gid).mpr ⟨c, hc, hgm⟩
    rw [hg] at hg2
    cases hg2
  | some g =>
    dsimp only
    split_ifs with hlen <;>
      exact ⟨{ c with groups := delSet c.groups groupId }, by simp [lookupA_setA],
        fun gid hgm => mem_delSet.mp hgm⟩

theorem foldl_pair_fst (clientId : Nat) (L : List Nat) :
    ∀ (s : ServerState) (ms : List (Nat × Msg)),
      (L.foldl (fun acc groupId =>
        let step := handleLeaveGroup acc.1 clientId groupId
        (step.1, acc.2 ++ step.2)) (s, ms)).1 =
      L.foldl (fun st groupId => (handleLeaveGroup st clientId groupId).1) s := by
  induction L with
  | nil => intro s ms; rfl
  | cons g rest ih =>
    intro s ms
    rw [List.foldl_cons, List.foldl_cons]
    exact ih _ _

theorem leave_fold_inv (clientId : Nat) (L : List Nat) :
    ∀ s : ServerState, RegistryInv s →
      (∀ c gid, lookupA s.clients clientId = some c → gid ∈ c.groups → gid ∈ L) →
      RegistryInv (L.foldl (fun st groupId => (handleLeaveGroup st clientId groupId).1) s) ∧
      ∀ c, lookupA
          (L.foldl (fun st groupId => (handleLeaveGroup st clientId groupId).1) s).clients
          clientId = some c → c.groups = [] := by
  induction L with
  | nil =>
    intro s hInv hsub
    refine ⟨hInv, ?_⟩
    intro c hc
    cases hgl : c.groups with
    | nil => rfl
    | cons g0 rest =>
      exact absurd (hsub c g0 hc (by rw [hgl]; exact List.mem_cons_self _ _))
        (List.not_mem_nil _)
  | cons gid0 rest ih =>
    intro s hInv hsub
    rw [List.foldl_cons]
    have hInv' : RegistryInv (handleLeaveGroup s clientId gid0).1 :=
      registryInv_leave s clientId gid0 hInv
    refine ih _ hInv' ?_
    intro c' gid hc' hgm
    cases hcx : lookupA s.clients clientId with
    | none =>
      unfold handleLeaveGroup at hc'
      rw [hcx] at hc'
      cases hx : lookupA s.groups gid0 with
      | none =>
        rw [hx] at hc'
        rw [hcx] at hc'
        cases hc'
      | some g =>
        rw [hx] at hc'
        rw [hcx] at hc'
        cases hc'
    | some c =>
      obtain ⟨c'', hc'', hsubc⟩ := leaveGroup_self_groups s clientId gid0 c hcx hInv.2.2
      rw [hc''] at hc'
      injection hc' with e
      cases e
      obtain ⟨hin, hne⟩ := hsubc gid hgm
      rcases List.mem_cons.mp (hsub c gid hcx hin) with he | hr
      · exact absurd he hne
      · exact hr

theorem registryInv_removeClient (s : ServerState) (clientId : Nat) (h : RegistryInv s)
    (hemp : ∀ c, lookupA s.clients clientId = some c → c.groups = []) :
    RegistryInv { s with clients := removeA s.clients clientId } := by
  obtain ⟨hndc, hndg, hsym⟩ := h
  refine ⟨nodupKeys_removeA _ hndc, hndg, ?_⟩
  intro cid' gid'
  by_cases hcid : clientId = cid'
  · subst hcid
    constructor
    · rintro ⟨g2, hg2, hm⟩
      obtain ⟨c2, hc2, hgm⟩ := (hsym clientId gid').mp ⟨g2, hg2, hm⟩
      rw [hemp c2 hc2] at hgm
      cases hgm
    · rintro ⟨c2, hc2, -⟩
      rw [show ({ s with clients := removeA s.clients clientId } : ServerState).clients
          = removeA s.clients clientId from rfl] at hc2
      rw [lookupA_removeA_self _ _ hndc] at hc2
      cases hc2
  · have hrw : lookupA (removeA s.clients clientId) cid' = lookupA s.clients cid' :=
      lookupA_removeA_ne _ _ _ hcid
    constructor
    · intro hl
      exact (hsym cid' gid').mp hl |>.imp fun c2 hc2 => ⟨hrw.symm ▸ hc2.1, hc2.2⟩
    · rintro ⟨c2, hc2, hm⟩
      rw [hrw] at hc2
      exact (hsym cid' gid').mpr ⟨c2, hc2, hm⟩

theorem registryInv_disconnect (s : ServerState) (clientId : Nat) (h : RegistryInv s) :
    RegistryInv (handleClientDisconnect s clientId).1 := by
  unfold handleClientDisconnect
  cases hc : lookupA s.clients clientId with
  | none => exact h
  | some c =>
    dsimp only
    rw [foldl_pair_fst]
    obtain ⟨hInvF, hempF⟩ := leave_fold_inv clientId c.groups s h
      (fun c' gid hc' hgm => by
        rw [hc] at hc'
        injection hc' with e
        cases e
        exact hgm)
    exact registryInv_removeClient _ clientId hInvF hempF

/-- C6: registry symmetry. Starting from any well-formed state (distinct
registry keys and symmetric membership — the initial empty registries and any
state the server reaches satisfy this), every sequence of join_group,
leave_group, and disconnect operations preserves the symmetry: a connection id
is in a group's member set iff that group id is in the connection's group
set. -/
theorem registry_symmetry (s : ServerState) (ops : List Op) (h : RegistryInv s) :
    SymmInv (applyOps s ops) := by
  have hInv : ∀ (ops' : List Op) (s' : ServerState), RegistryInv s' →
      RegistryInv (applyOps s' ops') := by
    intro ops'
    induction ops' with
    | nil => intro s' h'; exact h'
    | cons op rest ih =>
      intro s' h'
      have hstep : RegistryInv (applyOp s' op) := by
        cases op with
        | join cid gid now => exact registryInv_join s' cid gid now h'
        | leave cid gid => exact registryInv_leave s' cid gid h'
        | disconnect cid => exact registryInv_disconnect s' cid h'
      exact ih _ hstep
  exact (hInv ops s h).2.2

/-- C6 witness: a concrete operation sequence (two joins, one leave, one
disconnect) applied to a one-client state. -/
theorem registry_symmetry_witness :
    SymmInv (applyOps exState0 [Op.join 0 5 1, Op.join 0 6 2, Op.leave 0 5,
      Op.disconnect 0]) := by
  refine registry_symmetry exState0 _ ⟨by decide, by decide, ?_⟩
  intro cid gid
  constructor
  · rintro ⟨g, hg, -⟩
    simp [exState0] at hg
  · rintro ⟨c, hc, hm⟩
    simp only [exState0, lookupA_cons, lookupA_nil] at hc
    by_cases h0 : 0 = cid
    · rw [if_pos h0] at hc
      injection hc with e
      cases e
      simp [exClient0] at hm
    · rw [if_neg h0] at hc
      cases hc

